import Mathlib

/-!
Verification development for the `convert_hf_to_gguf.py` conversion pipeline.

The Python source is shallowly embedded: pure fragments become Lean functions,
the stateful expert accumulator becomes explicit state passing, Python
exceptions become `Option`/`Except` results, and Python `dict`s become
association lists with insert-or-overwrite semantics.  Tensor payloads are kept
abstract (a type parameter); `torch.stack` produces a `Stacked` value whose
slice list is explicit, and splitting along dim 0 works on row lists.

String operations (`in`, `endswith`, `replace`, sorting) are re-implemented by
structural recursion over the character list so that every definition is
executable by the kernel.
-/

/-! ## Character-list string primitives -/

/-- `listStartsWith pat l` : `pat` is an initial segment of `l`. -/
def listStartsWith : List Char → List Char → Bool
  | [], _ => true
  | _ :: _, [] => false
  | a :: as, b :: bs => a = b && listStartsWith as bs

/-- `subOccurs pat l` : `pat` occurs as a contiguous run somewhere in `l`. -/
def subOccurs (pat : List Char) : List Char → Bool
  | [] => pat.isEmpty
  | c :: rest => listStartsWith pat (c :: rest) || subOccurs pat rest

/-- Python `pat in s` / `s.find(pat) != -1`. -/
def strContains (s pat : String) : Bool := subOccurs pat.data s.data

/-- Python `s.endswith(suf)`. -/
def strEndsWith (s suf : String) : Bool := listStartsWith suf.data.reverse s.data.reverse

/-- One fuel-indexed step list for Python `s.replace(pat, rep)` (all
occurrences, left to right, no overlap). Fuel bounds the number of consumed
characters, so the recursion is structural. -/
def replaceFuel (pat rep : List Char) : Nat → List Char → List Char
  | 0, s => s
  | _ + 1, [] => []
  | fuel + 1, c :: rest =>
    if pat ≠ [] ∧ listStartsWith pat (c :: rest) then
      rep ++ replaceFuel pat rep fuel (List.drop pat.length (c :: rest))
    else
      c :: replaceFuel pat rep fuel rest

/-- Python `s.replace(pat, rep)`. -/
def strReplace (s pat rep : String) : String :=
  ⟨replaceFuel pat.data rep.data s.data.length s.data⟩

/-- Python-style string `<` (lexicographic on code points), used by `sorted`. -/
def strLeChars : List Char → List Char → Bool
  | [], _ => true
  | _ :: _, [] => false
  | a :: as, b :: bs => if a = b then strLeChars as bs else decide (a.toNat ≤ b.toNat)

def strLe (s t : String) : Bool := strLeChars s.data t.data

/-- Insert into a sorted list of strings (helper for `sorted`). -/
def orderedInsertStr (s : String) : List String → List String
  | [] => [s]
  | t :: ts => if strLe s t then s :: t :: ts else t :: orderedInsertStr s ts

/-- Python `sorted` on a list of strings (insertion sort; stable, structural). -/
def insertionSortStr : List String → List String
  | [] => []
  | s :: ss => orderedInsertStr s (insertionSortStr ss)

/-! ## Python dictionaries as association lists

Insertion overwrites in place when the key exists and appends otherwise, so
iteration order matches Python's insertion-ordered `dict`. -/

/-- A Python `dict` keyed by strings. -/
abbrev PyDict (α : Type) := List (String × α)

/-- `d[k] = v` : overwrite in place, or append when `k` is fresh. -/
def dictInsert {α : Type} : PyDict α → String → α → PyDict α
  | [], k, v => [(k, v)]
  | (k', v') :: d, k, v =>
    if k' = k then (k, v) :: d else (k', v') :: dictInsert d k v

/-- `d[k]` as an option (Python raises `KeyError` on `none`). -/
def dictGet? {α : Type} : PyDict α → String → Option α
  | [], _ => none
  | (k', v') :: d, k => if k' = k then some v' else dictGet? d k

/-- `del d[k]` : removes the (unique, in a real dict) binding of `k`. -/
def dictErase {α : Type} : PyDict α → String → PyDict α
  | [], _ => []
  | (k', v') :: d, k => if k' = k then d else (k', v') :: dictErase d k

/-- The key list of a dict, in iteration order. -/
def dictKeys {α : Type} (d : PyDict α) : List String := d.map Prod.fst

/-! ## Encoding selection (`ModelBase.prepare_tensors`, lines 286-362)

`gguf.GGMLQuantizationType` and `gguf.LlamaFileType` are restricted to the
members this script mentions. -/

inductive GGMLQuantizationType : Type where
  | F32 | F16 | BF16 | Q8_0 | TQ1_0 | TQ2_0
deriving DecidableEq, Repr

inductive LlamaFileType : Type where
  | ALL_F32 | MOSTLY_F16 | MOSTLY_BF16 | MOSTLY_Q8_0 | MOSTLY_TQ1_0 | MOSTLY_TQ2_0
  | GUESSED
deriving DecidableEq, Repr

/-- A block-quantized (non-full-precision, non-brain-float) encoding. -/
def isQuantizedEncoding : GGMLQuantizationType → Bool
  | .Q8_0 | .TQ1_0 | .TQ2_0 => true
  | .F32 | .F16 | .BF16 => false

/-- The Python-typed value `GGMLQuantizationType | bool` returned by
`ModelBase.tensor_force_quant` and threaded through `prepare_tensors` as
`data_qtype`. -/
inductive ForceQuant : Type where
  | concrete (q : GGMLQuantizationType)
  | flag (b : Bool)
deriving DecidableEq, Repr

/-- Lines 286-355 of `ModelBase.prepare_tensors`: resolve the stored encoding
for one canonical tensor.

* `force` is what `self.tensor_force_quant(name, new_name, bid, n_dims)`
  returned (architecture-specific override; the base returns `False`);
* `new_name` is the canonical name, `n_dims` the rank of the numpy data;
* `matchKeysF32` is `any(self.match_model_tensor_name(new_name, key, bid) ...)`
  over the always-F32 key set (FFN_GATE_INP, POS_EMBD, ..., line 295-317);
* `matchKeysEmbd` is the same over the TOKEN_EMBD/OUTPUT/... set (line 322-331);
  both depend only on external `gguf` name templates and are abstracted as
  booleans;
* `ftype` is the requested output policy.

The `GUESSED` file type reaching the final `match` corresponds to the
`raise ValueError(f"Unknown file type: ...")` branch (line 355). -/
def select_data_qtype (force : ForceQuant) (new_name : String) (n_dims : Nat)
    (matchKeysF32 matchKeysEmbd : Bool) (ftype : LlamaFileType) :
    Except String GGMLQuantizationType :=
  let dq1 : ForceQuant :=
    if n_dims ≤ 1 ∨ strEndsWith new_name "_norm.weight" = true then
      ForceQuant.concrete .F32
    else force
  let dq2 : ForceQuant :=
    if dq1 = ForceQuant.flag false ∧
        (matchKeysF32 = true ∨ strEndsWith new_name ".weight" = false) then
      ForceQuant.concrete .F32
    else dq1
  let dq3 : ForceQuant :=
    if dq2 = ForceQuant.flag false ∧ matchKeysEmbd = true ∧
        (ftype = .MOSTLY_TQ1_0 ∨ ftype = .MOSTLY_TQ2_0) then
      ForceQuant.concrete .F16
    else dq2
  match dq3 with
  | .concrete q => Except.ok q
  | .flag _ =>
    match ftype with
    | .ALL_F32 => Except.ok .F32
    | .MOSTLY_F16 => Except.ok .F16
    | .MOSTLY_BF16 => Except.ok .BF16
    | .MOSTLY_Q8_0 => Except.ok .Q8_0
    | .MOSTLY_TQ1_0 => Except.ok .TQ1_0
    | .MOSTLY_TQ2_0 => Except.ok .TQ2_0
    | .GUESSED => Except.error "Unknown file type: GUESSED"

/-- Lines 357-362 of `ModelBase.prepare_tensors`: attempt
`gguf.quants.quantize(data, data_qtype)`; on `QuantError` log a warning and
retry with `F16`.  The external quantizer is a parameter returning `none` for
`QuantError`.  Result: `((final encoding, written payload), warning issued)`. -/
def quantizeWithFallback {β : Type} (quantizer : GGMLQuantizationType → Option β)
    (q : GGMLQuantizationType) : (GGMLQuantizationType × Option β) × Bool :=
  match quantizer q with
  | some d => ((q, some d), false)
  | none => ((.F16, quantizer .F16), true)

/-! ## Source dtype normalization (`ModelBase.prepare_tensors`, lines 264-268) -/

/-- The torch dtypes relevant to the cast at line 267. -/
inductive TorchDType : Type where
  | float16 | float32 | bfloat16 | float8 | int8 | int32 | int64 | boolT
deriving DecidableEq, Repr

/-- Line 267-268: `if data_torch.dtype not in (torch.float16, torch.float32):
data_torch = data_torch.to(torch.float32)`.  The result is the dtype of the
tensor handed to `modify_tensors`. -/
def cast_for_modify_tensors (d : TorchDType) : TorchDType :=
  if d = .float16 ∨ d = .float32 then d else .float32

/-! ## Architecture registry (`ModelBase.from_model_architecture`, `main`) -/

/-- Lines 465-470: dictionary lookup in `cls._model_classes[model_type]`, with
`KeyError` converted to `NotImplementedError`.  The registry for one fixed
`model_type` is a `PyDict` whose values (model classes) stay abstract. -/
def from_model_architecture {α : Type} (registry : PyDict α) (arch : String) :
    Except String α :=
  match dictGet? registry arch with
  | some cls => Except.ok cls
  | none => Except.error ("Architecture '" ++ arch ++ "' not supported!")

/-- Lines 7850-7873 of `main`, reduced to the order of events that matters:
the handler class is selected (and on `NotImplementedError` the process exits)
before the model instance is built and `write()` starts pulling tensors.
The first component is the trace of tensor names read from the shard parts;
the second is the outcome of handler selection. -/
def main_convert {α : Type} (registry : PyDict α) (arch : String)
    (parts : List (List String)) : List String × Except String α :=
  match from_model_architecture registry arch with
  | Except.error e => ([], Except.error e)
  | Except.ok cls => (parts.flatten, Except.ok cls)

/-! ## Expert accumulation (`Qwen2MoeModel.modify_tensors`, lines 3278-3323)

Tensor payloads stay abstract (`α` stands for one raw 2-D expert matrix);
`torch.stack(datas, dim=0)` produces `Stacked.stack datas`, whose leading
dimension is the list length and whose slice `i` is `datas[i]`. -/

/-- A tensor as it leaves `modify_tensors`: either a raw input passed through,
or a 3-D stack of raw expert matrices built by `torch.stack(_, dim=0)`. -/
inductive Stacked (α : Type) : Type where
  | raw (a : α)
  | stack (slices : List α)
deriving DecidableEq, Repr

/-- The raw tensor name `f"model.layers.{bid}.mlp.experts.{xid}.{w_name}.weight"`
(line 3299). -/
def enameQwen (bid xid : Nat) (w : String) : String :=
  "model.layers." ++ toString bid ++ ".mlp.experts." ++ toString xid ++ "." ++
    w ++ ".weight"

/-- The merged name `f"model.layers.{bid}.mlp.experts.{w_name}.weight"`
(line 3305). -/
def mergedNameQwen (bid : Nat) (w : String) : String :=
  "model.layers." ++ toString bid ++ ".mlp.experts." ++ w ++ ".weight"

/-- The inner loop at lines 3298-3301: for each listed name, read
`self._experts[bid][ename]` (a `KeyError`, modeled as `none`, if absent) and
`del` it, accumulating the values in order. -/
def gatherExperts {α : Type} (d : PyDict α) : List String → Option (List α × PyDict α)
  | [] => some ([], d)
  | n :: ns =>
    match dictGet? d n with
    | none => none
    | some v =>
      match gatherExperts (dictErase d n) ns with
      | none => none
      | some (vs, d2) => some (v :: vs, d2)

/-- The loop at lines 3295-3309 over the remaining weight kinds: gather and
stack each kind's experts, returning the merged `(merged_name, stack)` pairs
(before `map_tensor_name`) and the drained dict. -/
def drainKinds {α : Type} (d : PyDict α) (bid n_experts : Nat) :
    List String → Option (List (String × Stacked α) × PyDict α)
  | [] => some ([], d)
  | w :: ws =>
    match gatherExperts d ((List.range n_experts).map fun xid => enameQwen bid xid w) with
    | none => none
    | some (datas, d2) =>
      match drainKinds d2 bid n_experts ws with
      | none => none
      | some (outs, d3) =>
        some ((mergedNameQwen bid w, Stacked.stack datas) :: outs, d3)

/-- The weight-kind list `["down_proj", "gate_proj", "up_proj"]` (line 3295). -/
def qwenWeightKinds : List String := ["down_proj", "gate_proj", "up_proj"]

/-- `Qwen2MoeModel.modify_tensors` (lines 3280-3314).

* `mapName` abstracts `self.map_tensor_name` (a pure rename through the
  external `gguf` tensor-name map);
* the accumulator `self._experts : list[dict[str, Tensor]] | None` is passed
  and returned explicitly;
* `none` models an uncaught Python exception (`assert bid is not None`,
  `IndexError` on `self._experts[bid]`, or `KeyError` during the merge). -/
def qwen2moe_modify_tensors {α : Type} (mapName : String → String)
    (block_count n_experts : Nat) (st : Option (List (PyDict α)))
    (name : String) (data : α) (bid : Option Nat) :
    Option (List (String × Stacked α) × Option (List (PyDict α))) :=
  if strContains name "experts" then
    match bid with
    | none => none
    | some b =>
      let ex := st.getD (List.replicate block_count [])
      match ex.get? b with
      | none => none
      | some d =>
        let d1 := dictInsert d name data
        let ex1 := ex.set b d1
        if n_experts * 3 ≤ d1.length then
          match drainKinds d1 b n_experts qwenWeightKinds with
          | none => none
          | some (outs, d2) =>
            some (outs.map (fun p => (mapName p.1, p.2)), some (ex1.set b d2))
        else
          some ([], some ex1)
  else
    some ([(mapName name, Stacked.raw data)], st)

/-- A raw-stream item as seen by `modify_tensors`: name, payload, block id. -/
abbrev RawItem (α : Type) := String × α × Option Nat

/-- Feed a list of raw tensors through `qwen2moe_modify_tensors` in order,
starting from accumulator state `st`, concatenating the emitted canonical
tensors; `none` when any call raises. -/
def runQwen2Moe {α : Type} (mapName : String → String) (block_count n_experts : Nat)
    (st : Option (List (PyDict α))) :
    List (RawItem α) → Option (List (String × Stacked α) × Option (List (PyDict α)))
  | [] => some ([], st)
  | (name, data, bid) :: rest =>
    match qwen2moe_modify_tensors mapName block_count n_experts st name data bid with
    | none => none
    | some (outs, st1) =>
      match runQwen2Moe mapName block_count n_experts st1 rest with
      | none => none
      | some (outs2, st2) => some (outs ++ outs2, st2)

/-- The complete raw expert group for block `b` with `n` experts: one raw
tensor per weight kind and expert index, with payloads given by `t`, in the
canonical (kind-major) order.  A real checkpoint delivers a permutation of
this list; `bid` is `some b` because `prepare_tensors` extracts the first
decimal path segment of the name. -/
def expertGroup {α : Type} (b n : Nat) (t : Nat → String → α) : List (RawItem α) :=
  (qwenWeightKinds.map fun w =>
    (List.range n).map fun x => (enameQwen b x w, t x w, some b)).flatten

/-- The canonical tensors the drain of a complete group must emit: per weight
kind, the stack whose slice `x` is expert `x`'s raw tensor. -/
def expectedMergedOutputs {α : Type} (mapName : String → String) (b n : Nat)
    (t : Nat → String → α) : List (String × Stacked α) :=
  qwenWeightKinds.map fun w =>
    (mapName (mergedNameQwen b w), Stacked.stack ((List.range n).map fun x => t x w))

/-- `Qwen2MoeModel.prepare_tensors` / `LlamaModel.prepare_tensors` tail check
(lines 3316-3323 resp. 2060-2067): flatten the buffered keys of every block's
dict; a non-empty flattened list is a fatal
`ValueError(f"Unprocessed experts: {experts}")`, returned here as
`some` of the offending key list.  `none` input means the accumulator was
never initialized (`if self._experts is not None` fails), so no check runs. -/
def prepare_tensors_expert_check {α : Type} (experts : Option (List (PyDict α))) :
    Option (List String) :=
  match experts with
  | none => none
  | some ds =>
    let flat := (ds.map dictKeys).flatten
    if flat.length > 0 then some flat else none

/-! ## Shard-index reconciliation (`ModelBase.get_tensors`, lines 153-209) -/

/-- The fatal `ValueError`s at lines 203-209.  `missingFiles` carries
`missing_files` then `missing` (line 204-205); `mismatch` carries `missing`
then `extra` (line 207-209) and mentions no shard files. -/
inductive GetTensorsError : Type where
  | missingFiles (files : List String) (missing : List String)
  | mismatch (missing : List String) (extra : List String)
deriving DecidableEq, Repr

/-- The `missing` name list reported by either error branch. -/
def GetTensorsError.missingNames : GetTensorsError → List String
  | .missingFiles _ m => m
  | .mismatch m _ => m

/-- `sorted(...)` over a Python set: sort the distinct elements. -/
def pySortedSet (l : List String) : List String := insertionSortStr l.dedup

/-- `ModelBase.get_tensors` (lines 153-209) reduced to names.

* `index` is the parsed `weight_map` when the `.index.json` file exists
  (`none` when absent, in which case `self.tensor_names` aliases the set of
  names found in the parts and `weight_map = {}`);
* `parts` lists, per part file in order, the tensor names it holds.

The result's first component is the full yield sequence of the generator —
every tensor present in the parts, yielded before the reconciliation at line
199 runs; the second is the error raised after the last yield, if any. -/
def get_tensors_model (index : Option (PyDict String)) (parts : List (List String)) :
    List String × Option GetTensorsError :=
  let yielded := parts.flatten
  let observed := yielded.dedup
  let tensor_names :=
    match index with
    | some wm => (dictKeys wm).dedup
    | none => observed
  let weight_map := match index with | some wm => wm | none => []
  let missingRaw := tensor_names.filter fun n => decide (n ∉ observed)
  let extraRaw := observed.filter fun n => decide (n ∉ tensor_names)
  if missingRaw = [] ∧ extraRaw = [] then
    (yielded, none)
  else
    let missing := pySortedSet missingRaw
    let extra := pySortedSet extraRaw
    let missing_files := pySortedSet (missing.filterMap fun n => dictGet? weight_map n)
    if extra.length = 0 ∧ missing_files.length > 0 then
      (yielded, some (GetTensorsError.missingFiles missing_files missing))
    else
      (yielded, some (GetTensorsError.mismatch missing extra))

/-! ## Fused-tensor splitting (`Ernie4_5Model.modify_tensors`, lines 2864-2898)

A tensor is represented by its list of rows along dim 0 (`α` is one row). -/

/-- Chunking used by `torch.split(sizes, dim=0)` once the sizes are known to
sum to the length (torch raises otherwise, see `torchSplitSizes`). -/
def splitSizesGo {α : Type} (rows : List α) : List Nat → List (List α)
  | [] => []
  | n :: ns => rows.take n :: splitSizesGo (rows.drop n) ns

/-- `torch.split(sizes, dim=0)` with an explicit size list: defined only when
the sizes sum to the dim-0 length (otherwise torch raises a `RuntimeError`). -/
def torchSplitSizes {α : Type} (rows : List α) (sizes : List Nat) :
    Option (List (List α)) :=
  if sizes.sum = rows.length then some (splitSizesGo rows sizes) else none

/-- Fuel-indexed chunking for `torch.split(split_size, dim=0)`: chunks of
`k` rows, the last one possibly shorter.  Fuel (instantiated with the row
count) makes the recursion structural. -/
def splitChunkFuel {α : Type} (k : Nat) : Nat → List α → List (List α)
  | _, [] => []
  | 0, l => [l]
  | fuel + 1, l => l.take k :: splitChunkFuel k fuel (l.drop k)

/-- `torch.split(k, dim=0)` with a single chunk size. -/
def torchSplitChunk {α : Type} (rows : List α) (k : Nat) : List (List α) :=
  splitChunkFuel k rows.length rows

/-- Lines 2870-2871: `if "ernie." in name: name = name.replace("ernie.", "model.")`. -/
def ernieRenamed (name : String) : String :=
  if strContains name "ernie." then strReplace name "ernie." "model." else name

/-- `Ernie4_5Model.modify_tensors` (lines 2864-2898).

* `mapName` abstracts `self.map_tensor_name`;
* `num_heads`, `num_kv_heads`, `head_dim` are the hyperparameters read at
  lines 2865-2868 (`head_dim` already resolved by its fallback rule);
* the tensor is its dim-0 row list.

`none` models an uncaught torch/unpacking exception (size-list mismatch in
`split`, or unpacking into exactly two names failing). -/
def ernie_modify_tensors {α : Type} (mapName : String → String)
    (num_heads num_kv_heads head_dim : Nat) (name : String) (rows : List α) :
    Option (List (String × List α)) :=
  let name1 := ernieRenamed name
  if strContains name1 "qkv_proj" then
    let name_q := strReplace name1 "qkv_proj.weight" "q_proj.weight"
    let name_k := strReplace name1 "qkv_proj.weight" "k_proj.weight"
    let name_v := strReplace name1 "qkv_proj.weight" "v_proj.weight"
    let total_q_dim := num_heads * head_dim
    let total_k_dim := num_kv_heads * head_dim
    let total_v_dim := num_kv_heads * head_dim
    match torchSplitSizes rows [total_q_dim, total_k_dim, total_v_dim] with
    | some [q_proj_weight, k_proj_weight, v_proj_weight] =>
      some [(mapName name_q, q_proj_weight),
            (mapName name_k, k_proj_weight),
            (mapName name_v, v_proj_weight)]
    | _ => none
  else if strContains name1 "up_gate_proj" then
    let name_up := strReplace name1 "up_gate_proj.weight" "up_proj.weight"
    let name_gate := strReplace name1 "up_gate_proj.weight" "gate_proj.weight"
    let dim_half := rows.length / 2
    match torchSplitChunk rows dim_half with
    | [gate_proj_weight, up_proj_weight] =>
      some [(mapName name_gate, gate_proj_weight),
            (mapName name_up, up_proj_weight)]
    | _ => none
  else
    some [(mapName name1, rows)]

/-! ## Result accessors (used to state theorems without existentials) -/

/-- The canonical tensors emitted by a (successful) run of
`runQwen2Moe`. -/
def runOutputs {α : Type} (r : Option (List (String × Stacked α) × Option (List (PyDict α)))) :
    Option (List (String × Stacked α)) :=
  r.map Prod.fst

/-- The accumulator dict of block `b` in the final state of a run (when the
run succeeded and the accumulator was initialized). -/
def runBlockDict {α : Type} (r : Option (List (String × Stacked α) × Option (List (PyDict α))))
    (b : Nat) : Option (PyDict α) :=
  match r with
  | some (_, some ex) => ex[b]?
  | _ => none

/-- The missing-name list carried by the error of a `get_tensors_model`
result (empty when no error). -/
def reportedMissing (r : List String × Option GetTensorsError) : List String :=
  match r.2 with
  | some e => e.missingNames
  | none => []

/-- Whether the raised error is the `missingFiles` variant (line 204-205),
the only one that reports owning shard files. -/
def isMissingFilesError : Option GetTensorsError → Bool
  | some (GetTensorsError.missingFiles _ _) => true
  | _ => false

/-- The shard files named by the error (empty for the `mismatch` variant). -/
def reportedFiles (r : List String × Option GetTensorsError) : List String :=
  match r.2 with
  | some (GetTensorsError.missingFiles fs _) => fs
  | _ => []

/-- Concatenate the emitted pieces of a `modify_tensors` result back along
dim 0 (in emission order). -/
def concatEmitted {α : Type} (r : Option (List (String × List α))) : Option (List α) :=
  r.map fun outs => (outs.map Prod.snd).flatten

/-! # Helper lemmas -/

theorem dictInsert_of_not_mem {α : Type} (d : PyDict α) (k : String) (v : α)
    (h : k ∉ dictKeys d) : dictInsert d k v = d ++ [(k, v)] := by
  induction d with
  | nil => rfl
  | cons p rest ih =>
    obtain ⟨k', v'⟩ := p
    simp only [dictKeys, List.map_cons, List.mem_cons, not_or] at h
    simp only [dictInsert, if_neg (Ne.symm h.1), List.cons_append, List.cons.injEq,
      true_and]
    exact ih h.2

theorem length_dictInsert_of_mem {α : Type} (d : PyDict α) (k : String) (v : α)
    (h : k ∈ dictKeys d) : (dictInsert d k v).length = d.length := by
  induction d with
  | nil => simp [dictKeys] at h
  | cons p rest ih =>
    obtain ⟨k', v'⟩ := p
    by_cases hk : k' = k
    · simp [dictInsert, hk]
    · simp only [dictKeys, List.map_cons, List.mem_cons] at h
      rcases h with h | h
      · exact absurd h.symm hk
      · simp [dictInsert, hk, ih h]

theorem mem_of_dictGet?_eq_some {α : Type} (d : PyDict α) (k : String) (v : α)
    (h : dictGet? d k = some v) : (k, v) ∈ d := by
  induction d with
  | nil => simp [dictGet?] at h
  | cons p rest ih =>
    obtain ⟨k', v'⟩ := p
    by_cases hk : k' = k
    · simp only [dictGet?, if_pos hk, Option.some.injEq] at h
      subst hk; subst h
      exact List.mem_cons_self _ _
    · simp only [dictGet?, if_neg hk] at h
      exact List.mem_cons_of_mem _ (ih h)

theorem mem_keys_of_dictGet? {α : Type} (d : PyDict α) (k : String) (v : α)
    (h : dictGet? d k = some v) : k ∈ dictKeys d :=
  List.mem_map_of_mem Prod.fst (mem_of_dictGet?_eq_some d k v h)

theorem dictGet?_eq_some_of_mem {α : Type} (d : PyDict α) (k : String) (v : α)
    (hnd : (dictKeys d).Nodup) (h : (k, v) ∈ d) : dictGet? d k = some v := by
  induction d with
  | nil => simp at h
  | cons p rest ih =>
    obtain ⟨k', v'⟩ := p
    simp only [dictKeys, List.map_cons, List.nodup_cons] at hnd
    rcases List.mem_cons.mp h with h | h
    · obtain ⟨rfl, rfl⟩ : k' = k ∧ v' = v := by
        simpa [Prod.ext_iff] using h.symm
      simp [dictGet?]
    · have hk : k' ≠ k := by
        intro he
        exact hnd.1 (he ▸ List.mem_map_of_mem Prod.fst h)
      simp only [dictGet?, if_neg hk]
      exact ih hnd.2 h

theorem isSome_dictGet?_of_mem_keys {α : Type} (d : PyDict α) (k : String)
    (h : k ∈ dictKeys d) : ∃ v, dictGet? d k = some v := by
  induction d with
  | nil => simp [dictKeys] at h
  | cons p rest ih =>
    obtain ⟨k', v'⟩ := p
    by_cases hk : k' = k
    · exact ⟨v', by simp [dictGet?, hk]⟩
    · simp only [dictKeys, List.map_cons, List.mem_cons] at h
      rcases h with h | h
      · exact absurd h.symm hk
      · simpa [dictGet?, hk] using ih h

theorem dictGet?_dictErase_ne {α : Type} (d : PyDict α) (k k' : String)
    (h : k' ≠ k) : dictGet? (dictErase d k) k' = dictGet? d k' := by
  induction d with
  | nil => rfl
  | cons p rest ih =>
    obtain ⟨k0, v0⟩ := p
    simp only [dictErase]
    by_cases hk : k0 = k
    · rw [if_pos hk]
      have hne : k0 ≠ k' := fun he => h (he ▸ hk)
      simp only [dictGet?, if_neg hne]
    · rw [if_neg hk]
      by_cases hk' : k0 = k'
      · simp only [dictGet?, if_pos hk']
      · simp only [dictGet?, if_neg hk', ih]

theorem length_dictErase_of_mem {α : Type} (d : PyDict α) (k : String)
    (h : k ∈ dictKeys d) : (dictErase d k).length + 1 = d.length := by
  induction d with
  | nil => simp [dictKeys] at h
  | cons p rest ih =>
    obtain ⟨k0, v0⟩ := p
    by_cases hk : k0 = k
    · simp [dictErase, hk]
    · simp only [dictKeys, List.map_cons, List.mem_cons] at h
      rcases h with h | h
      · exact absurd h.symm hk
      · simp [dictErase, hk, ← ih h]

theorem mem_orderedInsertStr (a s : String) (l : List String) :
    a ∈ orderedInsertStr s l ↔ a = s ∨ a ∈ l := by
  induction l with
  | nil => simp [orderedInsertStr]
  | cons t ts ih =>
    by_cases hle : strLe s t = true
    · simp [orderedInsertStr, hle]
    · simp only [orderedInsertStr, if_neg hle, List.mem_cons, ih]
      tauto

theorem mem_insertionSortStr (a : String) (l : List String) :
    a ∈ insertionSortStr l ↔ a ∈ l := by
  induction l with
  | nil => simp [insertionSortStr]
  | cons s ss ih =>
    simp [insertionSortStr, mem_orderedInsertStr, ih]

theorem mem_pySortedSet (a : String) (l : List String) :
    a ∈ pySortedSet l ↔ a ∈ l := by
  simp [pySortedSet, mem_insertionSortStr]

/-! # Claim theorems -/

/-- C1: for every tensor of rank ≤ 1, and for every tensor whose canonical
name ends with `"_norm.weight"`, the encoding resolved by
`prepare_tensors` is `F32` — never a quantized encoding — for every requested
output policy and regardless of what `tensor_force_quant` returned; and even
the quantization-failure fallback can only leave a non-quantized encoding. -/
theorem c1_rank_le_one_or_norm_is_f32 {β : Type}
    (force : ForceQuant) (new_name : String) (n_dims : Nat)
    (matchKeysF32 matchKeysEmbd : Bool) (ftype : LlamaFileType)
    (quantizer : GGMLQuantizationType → Option β)
    (h : n_dims ≤ 1 ∨ strEndsWith new_name "_norm.weight" = true) :
    select_data_qtype force new_name n_dims matchKeysF32 matchKeysEmbd ftype =
      Except.ok GGMLQuantizationType.F32 ∧
    isQuantizedEncoding GGMLQuantizationType.F32 = false ∧
    isQuantizedEncoding
      ((quantizeWithFallback quantizer GGMLQuantizationType.F32).1.1) = false := by
  refine ⟨?_, rfl, ?_⟩
  · simp only [select_data_qtype, if_pos h]
    simp
  · cases hq : quantizer GGMLQuantizationType.F32 <;>
      simp [quantizeWithFallback, hq, isQuantizedEncoding]

/-- C1 witness: a rank-1 tensor with a concrete `Q8_0` override under the
`q8_0` policy still resolves to `F32`. -/
theorem c1_witness :
    ((1 : Nat) ≤ 1 ∨ strEndsWith "output.bias" "_norm.weight" = true) ∧
    (select_data_qtype (ForceQuant.concrete GGMLQuantizationType.Q8_0) "output.bias" 1
        false false LlamaFileType.MOSTLY_Q8_0 =
      Except.ok GGMLQuantizationType.F32 ∧
    isQuantizedEncoding GGMLQuantizationType.F32 = false ∧
    isQuantizedEncoding
      ((quantizeWithFallback (fun _ => (some 0 : Option Nat))
          GGMLQuantizationType.F32).1.1) = false) :=
  ⟨Or.inl (by decide),
   c1_rank_le_one_or_norm_is_f32 (ForceQuant.concrete GGMLQuantizationType.Q8_0)
     "output.bias" 1 false false LlamaFileType.MOSTLY_Q8_0
     (fun _ => (some 0 : Option Nat)) (Or.inl (by decide))⟩

/-- C5 counterexample: `tensor_force_quant` returning the concrete encoding
`Q8_0` for a rank-1 tensor is not honored — the rank ≤ 1 rule at line 290
overwrites it with `F32`, so the override is not evaluated with first-match
precedence. -/
theorem c5_counterexample :
    select_data_qtype (ForceQuant.concrete GGMLQuantizationType.Q8_0)
        "blk.0.ffn_down.weight" 1 false false LlamaFileType.MOSTLY_Q8_0 =
      Except.ok GGMLQuantizationType.F32 ∧
    GGMLQuantizationType.F32 ≠ GGMLQuantizationType.Q8_0 :=
  ⟨rfl, by decide⟩

/-- C5 amended: a concrete encoding returned by `tensor_force_quant` is the
one used only for tensors of rank ≥ 2 whose canonical name does not end in
`"_norm.weight"`; for rank ≤ 1 or `_norm.weight` tensors the unconditional
F32 rule overrides the architecture-specific override (cf. C1). -/
theorem c5_amended_override_wins_for_rank_ge_two
    (q : GGMLQuantizationType) (new_name : String) (n_dims : Nat)
    (matchKeysF32 matchKeysEmbd : Bool) (ftype : LlamaFileType)
    (hrank : 2 ≤ n_dims) (hnorm : strEndsWith new_name "_norm.weight" = false) :
    select_data_qtype (ForceQuant.concrete q) new_name n_dims matchKeysF32
      matchKeysEmbd ftype = Except.ok q := by
  have hcond : ¬(n_dims ≤ 1 ∨ strEndsWith new_name "_norm.weight" = true) := by
    rintro (h | h)
    · omega
    · rw [hnorm] at h
      exact Bool.false_ne_true h
  simp only [select_data_qtype, if_neg hcond]
  simp

/-- C5 witness: a concrete `Q8_0` override on a rank-2 non-norm tensor is
honored under the `f16` policy. -/
theorem c5_witness :
    (2 ≤ (2 : Nat) ∧ strEndsWith "blk.0.attn_q.weight" "_norm.weight" = false) ∧
    select_data_qtype (ForceQuant.concrete GGMLQuantizationType.Q8_0)
        "blk.0.attn_q.weight" 2 false false LlamaFileType.MOSTLY_F16 =
      Except.ok GGMLQuantizationType.Q8_0 :=
  ⟨⟨by decide, by decide⟩,
   c5_amended_override_wins_for_rank_ge_two GGMLQuantizationType.Q8_0
     "blk.0.attn_q.weight" 2 false false LlamaFileType.MOSTLY_F16
     (by decide) (by decide)⟩

/-- C8: when the external quantizer rejects the resolved encoding
(`QuantError`, modeled as `none`), `prepare_tensors` falls back to `F16`,
emits the warning, and continues with the `F16` payload — no abort. -/
theorem c8_quant_error_fallback_f16 {β : Type}
    (quantizer : GGMLQuantizationType → Option β) (q : GGMLQuantizationType)
    (d16 : β) (hfail : quantizer q = none)
    (hok : quantizer GGMLQuantizationType.F16 = some d16) :
    quantizeWithFallback quantizer q =
      ((GGMLQuantizationType.F16, some d16), true) := by
  simp [quantizeWithFallback, hfail, hok]

/-- C8 witness: a quantizer that fails on `TQ1_0` but succeeds on `F16`. -/
theorem c8_witness :
    ((fun t => if t = GGMLQuantizationType.F16 then some (0 : Nat) else none)
        GGMLQuantizationType.TQ1_0 = none) ∧
    ((fun t => if t = GGMLQuantizationType.F16 then some (0 : Nat) else none)
        GGMLQuantizationType.F16 = some 0) ∧
    quantizeWithFallback
        (fun t => if t = GGMLQuantizationType.F16 then some (0 : Nat) else none)
        GGMLQuantizationType.TQ1_0 =
      ((GGMLQuantizationType.F16, some 0), true) :=
  ⟨by decide, by decide,
   c8_quant_error_fallback_f16
     (fun t => if t = GGMLQuantizationType.F16 then some (0 : Nat) else none)
     GGMLQuantizationType.TQ1_0 0 (by decide) (by decide)⟩

/-- C9: handler selection is an exact-match dictionary lookup performed before
any tensor is read: an unregistered architecture string makes `main` exit with
the "not supported" error and an empty read trace, and a registered string
yields exactly the registered handler class. -/
theorem c9_registry_selection {α : Type} (registry : PyDict α) (arch : String)
    (parts : List (List String)) :
    (dictGet? registry arch = none →
      from_model_architecture registry arch =
        Except.error ("Architecture '" ++ arch ++ "' not supported!") ∧
      main_convert registry arch parts =
        ([], Except.error ("Architecture '" ++ arch ++ "' not supported!"))) ∧
    (∀ cls, dictGet? registry arch = some cls →
      from_model_architecture registry arch = Except.ok cls ∧
      main_convert registry arch parts = (parts.flatten, Except.ok cls)) := by
  constructor
  · intro h
    constructor <;> simp [from_model_architecture, main_convert, h]
  · intro cls h
    constructor <;> simp [from_model_architecture, main_convert, h]

/-- C9 witness: one registered and one unregistered architecture name. -/
theorem c9_witness :
    (dictGet? [("LlamaForCausalLM", (0 : Nat))] "FooForCausalLM" = none ∧
      main_convert [("LlamaForCausalLM", (0 : Nat))] "FooForCausalLM" [["a"]] =
        ([], Except.error "Architecture 'FooForCausalLM' not supported!")) ∧
    (dictGet? [("LlamaForCausalLM", (0 : Nat))] "LlamaForCausalLM" = some 0 ∧
      main_convert [("LlamaForCausalLM", (0 : Nat))] "LlamaForCausalLM" [["a"]] =
        (["a"], Except.ok 0)) :=
  ⟨⟨by decide,
    ((c9_registry_selection [("LlamaForCausalLM", (0 : Nat))] "FooForCausalLM"
        [["a"]]).1 (by decide)).2⟩,
   ⟨by decide,
    ((c9_registry_selection [("LlamaForCausalLM", (0 : Nat))] "LlamaForCausalLM"
        [["a"]]).2 0 (by decide)).2⟩⟩

/-- C10: the dtype of every tensor handed to `modify_tensors` is `float16` or
`float32`: supported dtypes pass through unchanged, every other source dtype
is cast to `float32` first. -/
theorem c10_modify_tensors_dtype_invariant (d : TorchDType) :
    (cast_for_modify_tensors d = TorchDType.float16 ∨
      cast_for_modify_tensors d = TorchDType.float32) ∧
    ((d = TorchDType.float16 ∨ d = TorchDType.float32) →
      cast_for_modify_tensors d = d) ∧
    (¬(d = TorchDType.float16 ∨ d = TorchDType.float32) →
      cast_for_modify_tensors d = TorchDType.float32) := by
  cases d <;> simp [cast_for_modify_tensors]

/-- C10 witness: a `bfloat16` tensor reaches `modify_tensors` as `float32`. -/
theorem c10_witness :
    ¬(TorchDType.bfloat16 = TorchDType.float16 ∨
        TorchDType.bfloat16 = TorchDType.float32) ∧
    cast_for_modify_tensors TorchDType.bfloat16 = TorchDType.float32 :=
  ⟨by decide,
   (c10_modify_tensors_dtype_invariant TorchDType.bfloat16).2.2 (by decide)⟩

/-- C7 counterexample: a second arrival of an already-buffered expert tensor
name is accepted without any error: `Qwen2MoeModel.modify_tensors` returns
normally, the dict assignment at line 3289 silently overwrites the buffered
payload (7 becomes 8), and the buffered count stays 1. -/
theorem c7_counterexample :
    qwen2moe_modify_tensors (α := Nat) id 1 2
        (some [[("model.layers.0.mlp.experts.0.gate_proj.weight", 7)]])
        "model.layers.0.mlp.experts.0.gate_proj.weight" 8 (some 0) =
      some ([], some [[("model.layers.0.mlp.experts.0.gate_proj.weight", 8)]]) ∧
    [("model.layers.0.mlp.experts.0.gate_proj.weight", (8 : Nat))].length =
      [("model.layers.0.mlp.experts.0.gate_proj.weight", (7 : Nat))].length := by
  exact ⟨rfl, rfl⟩

/-- C7 amended: receiving an already-buffered expert tensor name again does
not raise any error: the call returns normally with no emission, the new
payload overwrites the buffered one in place, and the buffered count (hence
the merge trigger) is unchanged. -/
theorem c7_amended_duplicate_overwrites {α : Type} (mapName : String → String)
    (block_count n_experts : Nat) (ex : List (PyDict α)) (b : Nat) (d : PyDict α)
    (name : String) (data : α)
    (hsub : strContains name "experts" = true)
    (hb : ex.get? b = some d)
    (hmem : name ∈ dictKeys d)
    (hlen : d.length < n_experts * 3) :
    qwen2moe_modify_tensors mapName block_count n_experts (some ex) name data
        (some b) =
      some ([], some (ex.set b (dictInsert d name data))) ∧
    (dictInsert d name data).length = d.length := by
  have hl : (dictInsert d name data).length = d.length :=
    length_dictInsert_of_mem d name data hmem
  refine ⟨?_, hl⟩
  have hlt : ¬(n_experts * 3 ≤ (dictInsert d name data).length) := by
    rw [hl]; omega
  simp only [qwen2moe_modify_tensors, hsub, if_true, Option.getD_some, hb,
    if_neg hlt]

/-- C7 witness: duplicate arrival on a one-entry buffer with 2 experts
expected. -/
theorem c7_witness :
    (strContains "model.layers.0.mlp.experts.0.gate_proj.weight" "experts" = true ∧
      ([[("model.layers.0.mlp.experts.0.gate_proj.weight", (7 : Nat))]].get? 0 =
        some [("model.layers.0.mlp.experts.0.gate_proj.weight", 7)]) ∧
      "model.layers.0.mlp.experts.0.gate_proj.weight" ∈
        dictKeys [("model.layers.0.mlp.experts.0.gate_proj.weight", (7 : Nat))] ∧
      [("model.layers.0.mlp.experts.0.gate_proj.weight", (7 : Nat))].length < 2 * 3) ∧
    qwen2moe_modify_tensors (α := Nat) id 1 2
        (some [[("model.layers.0.mlp.experts.0.gate_proj.weight", 7)]])
        "model.layers.0.mlp.experts.0.gate_proj.weight" 8 (some 0) =
      some ([], some [[("model.layers.0.mlp.experts.0.gate_proj.weight", 8)]]) :=
  ⟨⟨by decide, by decide, by decide, by decide⟩,
   (c7_amended_duplicate_overwrites id 1 2
      [[("model.layers.0.mlp.experts.0.gate_proj.weight", 7)]] 0
      [("model.layers.0.mlp.experts.0.gate_proj.weight", 7)]
      "model.layers.0.mlp.experts.0.gate_proj.weight" 8
      (by decide) (by decide) (by decide) (by decide)).1⟩

/-- C4: the finalization check of `prepare_tensors` succeeds exactly when
every block's accumulator dict is empty (or the accumulator was never
initialized), and otherwise raises the fatal error naming exactly the
flattened list of still-buffered raw-tensor keys. -/
theorem c4_finalize_expert_check {α : Type} (ds : List (PyDict α)) :
    (prepare_tensors_expert_check (some ds) = none ↔ ∀ d ∈ ds, d = []) ∧
    (∀ l, prepare_tensors_expert_check (some ds) = some l →
      l = (ds.map dictKeys).flatten ∧ l ≠ []) ∧
    prepare_tensors_expert_check (none : Option (List (PyDict α))) = none := by
  have hflat : (ds.map dictKeys).flatten = [] ↔ ∀ d ∈ ds, d = [] := by
    rw [List.flatten_eq_nil_iff]
    constructor
    · intro h d hd
      have := h (dictKeys d) (List.mem_map_of_mem dictKeys hd)
      simpa [dictKeys] using this
    · intro h l hl
      rcases List.mem_map.mp hl with ⟨d, hd, rfl⟩
      simp [h d hd, dictKeys]
  refine ⟨?_, ?_, rfl⟩
  · by_cases h : ((ds.map dictKeys).flatten).length > 0
    · have hne : (ds.map dictKeys).flatten ≠ [] := by
        intro he; rw [he] at h; simp at h
      simp only [prepare_tensors_expert_check, if_pos h]
      constructor
      · intro he; simp at he
      · intro hall; exact absurd (hflat.mpr hall) hne
    · have hz : ((ds.map dictKeys).flatten).length = 0 := by omega
      have he : (ds.map dictKeys).flatten = [] := List.length_eq_zero.mp hz
      simp only [prepare_tensors_expert_check, if_neg h]
      exact ⟨fun _ => hflat.mp he, fun _ => trivial⟩
  · intro l hl
    by_cases h : ((ds.map dictKeys).flatten).length > 0
    · simp only [prepare_tensors_expert_check, if_pos h, Option.some.injEq] at hl
      subst hl
      refine ⟨rfl, ?_⟩
      intro he; rw [he] at h; simp at h
    · simp only [prepare_tensors_expert_check, if_neg h] at hl
      exact Option.noConfusion hl

/-- C4 witness: one undrained entry is reported; empty accumulators pass. -/
theorem c4_witness :
    (prepare_tensors_expert_check (α := Nat)
        (some [[("model.layers.0.mlp.experts.1.up_proj.weight", 5)], []]) =
      some ["model.layers.0.mlp.experts.1.up_proj.weight"]) ∧
    (["model.layers.0.mlp.experts.1.up_proj.weight"] =
        (([[("model.layers.0.mlp.experts.1.up_proj.weight", (5 : Nat))], []]).map
          dictKeys).flatten ∧
      ["model.layers.0.mlp.experts.1.up_proj.weight"] ≠ []) ∧
    prepare_tensors_expert_check (α := Nat) (some [[], []]) = none :=
  ⟨by decide,
   (c4_finalize_expert_check
      [[("model.layers.0.mlp.experts.1.up_proj.weight", (5 : Nat))], []]).2.1
     ["model.layers.0.mlp.experts.1.up_proj.weight"] (by decide),
   ((c4_finalize_expert_check (α := Nat) [[], []]).1).mpr (by decide)⟩

theorem splitChunkFuel_nil {α : Type} (k fuel : Nat) :
    splitChunkFuel (α := α) k fuel [] = [] := by
  cases fuel <;> rfl

theorem splitChunkFuel_succ {α : Type} (k fuel : Nat) (rows : List α)
    (h : rows ≠ []) :
    splitChunkFuel k (fuel + 1) rows =
      rows.take k :: splitChunkFuel k fuel (rows.drop k) := by
  cases rows with
  | nil => exact absurd rfl h
  | cons a l => rfl

theorem torchSplitChunk_halves {α : Type} (rows : List α) (k : Nat)
    (hk : 0 < k) (hlen : rows.length = 2 * k) :
    torchSplitChunk rows k = [rows.take k, rows.drop k] := by
  have hne : rows ≠ [] := by
    intro he; rw [he] at hlen; simp at hlen; omega
  have h1 : rows.length = (2 * k - 1) + 1 := by omega
  unfold torchSplitChunk
  rw [h1, splitChunkFuel_succ _ _ _ hne]
  have hdl : (rows.drop k).length = k := by
    simp [List.length_drop]; omega
  have hdne : rows.drop k ≠ [] := by
    intro he; rw [he] at hdl; simp at hdl; omega
  have h2 : 2 * k - 1 = (2 * k - 2) + 1 := by omega
  rw [h2, splitChunkFuel_succ _ _ _ hdne]
  have ht : (rows.drop k).take k = rows.drop k :=
    List.take_of_length_le (le_of_eq hdl)
  have hd2 : (rows.drop k).drop k = [] := by
    rw [List.drop_drop]
    exact List.drop_eq_nil_of_le (by simp [hlen]; omega)
  rw [ht, hd2, splitChunkFuel_nil]

/-- C6: splitting a fused tensor whose declared part widths sum to its dim-0
width and concatenating the emitted pieces back along the same axis, in
emission order, reproduces the original tensor exactly — both for the fused
qkv split (head-count-derived widths) and for the `up_gate_proj` halving. -/
theorem c6_split_reconcat {α : Type} (mapName : String → String)
    (num_heads num_kv_heads head_dim : Nat) (name : String) (rows : List α) :
    (strContains (ernieRenamed name) "qkv_proj" = true →
      num_heads * head_dim + num_kv_heads * head_dim + num_kv_heads * head_dim =
        rows.length →
      concatEmitted
          (ernie_modify_tensors mapName num_heads num_kv_heads head_dim name rows) =
        some rows ∧
      (ernie_modify_tensors mapName num_heads num_kv_heads head_dim name rows).map
          List.length = some 3) ∧
    (strContains (ernieRenamed name) "qkv_proj" = false →
      strContains (ernieRenamed name) "up_gate_proj" = true →
      0 < rows.length → rows.length % 2 = 0 →
      concatEmitted
          (ernie_modify_tensors mapName num_heads num_kv_heads head_dim name rows) =
        some rows ∧
      (ernie_modify_tensors mapName num_heads num_kv_heads head_dim name rows).map
          List.length = some 2) := by
  constructor
  · intro hqkv hsum
    have hsum' : [num_heads * head_dim, num_kv_heads * head_dim,
        num_kv_heads * head_dim].sum = rows.length := by
      simp; omega
    constructor
    · simp only [ernie_modify_tensors, hqkv, if_true, torchSplitSizes,
        if_pos hsum', splitSizesGo]
      simp [concatEmitted]
      have hc2 : (rows.drop (num_heads * head_dim + num_kv_heads * head_dim)).length
          = num_kv_heads * head_dim := by
        simp [List.length_drop]; omega
      have hdd : rows.drop (num_heads * head_dim + num_kv_heads * head_dim)
          = (rows.drop (num_heads * head_dim)).drop (num_kv_heads * head_dim) := by
        rw [List.drop_drop, Nat.add_comm]
      rw [List.take_of_length_le (le_of_eq hc2), hdd, List.take_append_drop,
        List.take_append_drop]
    · simp only [ernie_modify_tensors, hqkv, if_true, torchSplitSizes,
        if_pos hsum', splitSizesGo]
      rfl
  · intro hq hup hpos heven
    have hk : 0 < rows.length / 2 := by omega
    have hlen : rows.length = 2 * (rows.length / 2) := by omega
    constructor
    · simp only [ernie_modify_tensors, hq, hup, if_true, Bool.false_eq_true,
        if_false, torchSplitChunk_halves rows (rows.length / 2) hk hlen]
      simp [concatEmitted, List.take_append_drop]
    · simp only [ernie_modify_tensors, hq, hup, if_true, Bool.false_eq_true,
        if_false, torchSplitChunk_halves rows (rows.length / 2) hk hlen]
      rfl

/-- C6 witness: a 3-row qkv tensor with unit head widths, and a 4-row
`up_gate_proj` tensor, both reconcatenate to the originals. -/
theorem c6_witness :
    (strContains (ernieRenamed "ernie.layers.0.self_attn.qkv_proj.weight")
        "qkv_proj" = true ∧
      1 * 1 + 1 * 1 + 1 * 1 = [10, 20, 30].length) ∧
    concatEmitted (ernie_modify_tensors (α := Nat) id 1 1 1
        "ernie.layers.0.self_attn.qkv_proj.weight" [10, 20, 30]) =
      some [10, 20, 30] ∧
    (strContains (ernieRenamed "model.layers.0.mlp.up_gate_proj.weight")
        "qkv_proj" = false ∧
      strContains (ernieRenamed "model.layers.0.mlp.up_gate_proj.weight")
        "up_gate_proj" = true) ∧
    concatEmitted (ernie_modify_tensors (α := Nat) id 1 1 1
        "model.layers.0.mlp.up_gate_proj.weight" [7, 8, 9, 6]) =
      some [7, 8, 9, 6] :=
  ⟨⟨by decide, by decide⟩,
   ((c6_split_reconcat id 1 1 1 "ernie.layers.0.self_attn.qkv_proj.weight"
       [10, 20, 30]).1 (by decide) (by decide)).1,
   ⟨by decide, by decide⟩,
   ((c6_split_reconcat id 1 1 1 "model.layers.0.mlp.up_gate_proj.weight"
       [7, 8, 9, 6]).2 (by decide) (by decide) (by decide) (by decide)).1⟩

/-- C3 counterexample: index declares `{A, C}`, the parts contain `{A, D}`.
`C` is missing, yet because `D` is an extra tensor the raised error is the
`mismatch` variant (line 207-209), which names the missing and extra tensors
but no owning shard file. -/
theorem c3_counterexample :
    get_tensors_model (some [("A", "f1"), ("C", "f1")]) [["A", "D"]] =
      (["A", "D"], some (GetTensorsError.mismatch ["C"] ["D"])) ∧
    isMissingFilesError
      (get_tensors_model (some [("A", "f1"), ("C", "f1")]) [["A", "D"]]).2 = false ∧
    reportedFiles
      (get_tensors_model (some [("A", "f1"), ("C", "f1")]) [["A", "D"]]) = [] := by
  refine ⟨?_, ?_, ?_⟩ <;> rfl

/-- C3 amended: with a weight-map index present and some declared names never
observed, the stream yields every tensor present in the parts and only then
raises a fatal error whose missing-name list is exactly the declared-but-
unobserved names; the owning shard files are additionally reported exactly
when no extra (undeclared) tensors were observed — with extras present the
`mismatch` error names missing and extra tensors but no files. -/
theorem c3_missing_tensor_reconciliation (wm : PyDict String)
    (parts : List (List String))
    (hmiss : ∃ nm, nm ∈ dictKeys wm ∧ nm ∉ parts.flatten) :
    (get_tensors_model (some wm) parts).1 = parts.flatten ∧
    ((get_tensors_model (some wm) parts).2).isSome = true ∧
    (∀ nm, nm ∈ reportedMissing (get_tensors_model (some wm) parts) ↔
      (nm ∈ dictKeys wm ∧ nm ∉ parts.flatten)) ∧
    ((∀ nm ∈ parts.flatten, nm ∈ dictKeys wm) →
      isMissingFilesError (get_tensors_model (some wm) parts).2 = true ∧
      ∀ f, f ∈ reportedFiles (get_tensors_model (some wm) parts) ↔
        ∃ nm, nm ∈ dictKeys wm ∧ nm ∉ parts.flatten ∧ dictGet? wm nm = some f) := by
  obtain ⟨nm0, hk0, hf0⟩ := hmiss
  have hmem0 : nm0 ∈ ((dictKeys wm).dedup).filter
      (fun n => decide (n ∉ parts.flatten.dedup)) := by
    simp only [List.mem_filter, List.mem_dedup, decide_eq_true_eq]
    exact ⟨hk0, hf0⟩
  have hcond : ¬((((dictKeys wm).dedup).filter
        (fun n => decide (n ∉ parts.flatten.dedup))) = [] ∧
      ((parts.flatten.dedup).filter
        (fun n => decide (n ∉ (dictKeys wm).dedup))) = []) := by
    rintro ⟨h1, -⟩
    rw [h1] at hmem0
    simp at hmem0
  simp only [get_tensors_model]
  rw [if_neg hcond]
  by_cases hb : (pySortedSet (List.filter (fun n => decide (n ∉ (dictKeys wm).dedup))
        parts.flatten.dedup)).length = 0 ∧
      (pySortedSet (List.filterMap (fun n => dictGet? wm n)
        (pySortedSet (List.filter (fun n => decide (n ∉ parts.flatten.dedup))
          (dictKeys wm).dedup)))).length > 0
  · rw [if_pos hb]
    refine ⟨rfl, rfl, ?_, ?_⟩
    · intro nm
      simp only [reportedMissing, GetTensorsError.missingNames]
      rw [mem_pySortedSet]
      simp [List.mem_filter, List.mem_dedup]
    · intro hnoex
      refine ⟨rfl, ?_⟩
      intro f
      simp only [reportedFiles]
      rw [mem_pySortedSet]
      simp only [List.mem_filterMap]
      constructor
      · rintro ⟨a, ha, hget⟩
        rw [mem_pySortedSet] at ha
        simp only [List.mem_filter, List.mem_dedup, decide_eq_true_eq] at ha
        exact ⟨a, ha.1, ha.2, hget⟩
      · rintro ⟨a, hak, haf, hget⟩
        refine ⟨a, ?_, hget⟩
        rw [mem_pySortedSet]
        simp only [List.mem_filter, List.mem_dedup, decide_eq_true_eq]
        exact ⟨hak, haf⟩
  · rw [if_neg hb]
    refine ⟨rfl, rfl, ?_, ?_⟩
    · intro nm
      simp only [reportedMissing, GetTensorsError.missingNames]
      rw [mem_pySortedSet]
      simp [List.mem_filter, List.mem_dedup]
    · intro hnoex
      exfalso
      apply hb
      constructor
      · have hE : List.filter (fun n => decide (n ∉ (dictKeys wm).dedup))
            parts.flatten.dedup = [] := by
          rw [List.filter_eq_nil_iff]
          intro a ha
          simp only [List.mem_dedup] at ha
          simp only [decide_eq_true_eq, List.mem_dedup, not_not]
          exact hnoex a ha
        rw [hE]
        rfl
      · obtain ⟨v, hv⟩ := isSome_dictGet?_of_mem_keys wm nm0 hk0
        have hmm : nm0 ∈ pySortedSet (List.filter
            (fun n => decide (n ∉ parts.flatten.dedup)) (dictKeys wm).dedup) := by
          rw [mem_pySortedSet]; exact hmem0
        have hvm : v ∈ List.filterMap (fun n => dictGet? wm n)
            (pySortedSet (List.filter (fun n => decide (n ∉ parts.flatten.dedup))
              (dictKeys wm).dedup)) := by
          rw [List.mem_filterMap]; exact ⟨nm0, hmm, hv⟩
        have hvs : v ∈ pySortedSet (List.filterMap (fun n => dictGet? wm n)
            (pySortedSet (List.filter (fun n => decide (n ∉ parts.flatten.dedup))
              (dictKeys wm).dedup))) := by
          rw [mem_pySortedSet]; exact hvm
        exact List.length_pos.mpr (List.ne_nil_of_mem hvs)

/-- C3 witness: index `{A → f1, C → f2}` with parts containing only `A`. -/
theorem c3_witness :
    (∃ nm, nm ∈ dictKeys [("A", "f1"), ("C", "f2")] ∧ nm ∉ [["A"]].flatten) ∧
    (get_tensors_model (some [("A", "f1"), ("C", "f2")]) [["A"]]).1 =
      [["A"]].flatten ∧
    ((get_tensors_model (some [("A", "f1"), ("C", "f2")]) [["A"]]).2).isSome =
      true ∧
    ("C" ∈ reportedMissing
        (get_tensors_model (some [("A", "f1"), ("C", "f2")]) [["A"]]) ↔
      ("C" ∈ dictKeys [("A", "f1"), ("C", "f2")] ∧ "C" ∉ [["A"]].flatten)) ∧
    isMissingFilesError
      (get_tensors_model (some [("A", "f1"), ("C", "f2")]) [["A"]]).2 = true :=
  ⟨⟨"C", by decide, by decide⟩,
   (c3_missing_tensor_reconciliation [("A", "f1"), ("C", "f2")] [["A"]]
      ⟨"C", by decide, by decide⟩).1,
   (c3_missing_tensor_reconciliation [("A", "f1"), ("C", "f2")] [["A"]]
      ⟨"C", by decide, by decide⟩).2.1,
   (c3_missing_tensor_reconciliation [("A", "f1"), ("C", "f2")] [["A"]]
      ⟨"C", by decide, by decide⟩).2.2.1 "C",
   ((c3_missing_tensor_reconciliation [("A", "f1"), ("C", "f2")] [["A"]]
      ⟨"C", by decide, by decide⟩).2.2.2 (by decide)).1⟩

theorem listStartsWith_self_append (pat r : List Char) :
    listStartsWith pat (pat ++ r) = true := by
  induction pat with
  | nil => rfl
  | cons c cs ih => simp [listStartsWith, ih]

theorem subOccurs_self_append (pat r : List Char) :
    subOccurs pat (pat ++ r) = true := by
  cases pat with
  | nil =>
    cases r with
    | nil => rfl
    | cons c rest => simp [subOccurs, listStartsWith]
  | cons c cs =>
    show subOccurs (c :: cs) (c :: (cs ++ r)) = true
    simp [subOccurs, listStartsWith, listStartsWith_self_append]

theorem subOccurs_append_left (pat l m : List Char) (h : subOccurs pat m = true) :
    subOccurs pat (l ++ m) = true := by
  induction l with
  | nil => simpa using h
  | cons c cs ih =>
    simp only [List.cons_append, subOccurs, Bool.or_eq_true]
    exact Or.inr ih

theorem strContains_enameQwen (b x : Nat) (w : String) :
    strContains (enameQwen b x w) "experts" = true := by
  show subOccurs ("experts" : String).data (enameQwen b x w).data = true
  unfold enameQwen
  simp only [String.data_append]
  rw [show (['.', 'm', 'l', 'p', '.', 'e', 'x', 'p', 'e', 'r', 't', 's', '.'] :
        List Char) =
      ['.', 'm', 'l', 'p', '.'] ++ ['e', 'x', 'p', 'e', 'r', 't', 's'] ++ ['.']
    from rfl]
  simp only [List.append_assoc]
  apply subOccurs_append_left
  apply subOccurs_append_left
  apply subOccurs_append_left
  exact subOccurs_self_append _ _

theorem mem_expertGroup {α : Type} (b n : Nat) (t : Nat → String → α)
    (p : RawItem α) :
    p ∈ expertGroup b n t ↔
      ∃ w, w ∈ qwenWeightKinds ∧ ∃ x, x < n ∧
        p = (enameQwen b x w, t x w, some b) := by
  constructor
  · intro hp
    simp only [expertGroup, List.mem_flatten, List.mem_map] at hp
    obtain ⟨l', ⟨w, hw, rfl⟩, hpl⟩ := hp
    obtain ⟨x, hx, he⟩ := List.mem_map.mp hpl
    exact ⟨w, hw, x, List.mem_range.mp hx, he.symm⟩
  · rintro ⟨w, hw, x, hx, rfl⟩
    simp only [expertGroup, List.mem_flatten, List.mem_map]
    exact ⟨(List.range n).map fun x => (enameQwen b x w, t x w, some b),
      ⟨w, hw, rfl⟩, List.mem_map_of_mem _ (List.mem_range.mpr hx)⟩

theorem length_expertGroup {α : Type} (b n : Nat) (t : Nat → String → α) :
    (expertGroup b n t).length = n * 3 := by
  simp [expertGroup, qwenWeightKinds]
  omega

theorem map_fst_expertGroup {α : Type} (b n : Nat) (t : Nat → String → α) :
    (expertGroup b n t).map (fun p => p.1) =
      (qwenWeightKinds.map fun w =>
        (List.range n).map fun x => enameQwen b x w).flatten := by
  simp [expertGroup, List.map_flatten, List.map_map, Function.comp_def]

theorem gatherExperts_map_spec {α : Type} (g : Nat → String) (h : Nat → α) :
    ∀ (xs : List Nat) (d : PyDict α),
      (xs.map g).Nodup →
      (∀ x ∈ xs, dictGet? d (g x) = some (h x)) →
      ∃ d2, gatherExperts d (xs.map g) = some (xs.map h, d2) ∧
        (∀ k, k ∉ xs.map g → dictGet? d2 k = dictGet? d k) ∧
        d2.length + xs.length = d.length := by
  intro xs
  induction xs with
  | nil =>
    intro d _ _
    exact ⟨d, rfl, fun k _ => rfl, by simp⟩
  | cons x xs ih =>
    intro d hnd hget
    simp only [List.map_cons, List.nodup_cons] at hnd
    have hx : dictGet? d (g x) = some (h x) := hget x (List.mem_cons_self _ _)
    have hrest : ∀ y ∈ xs, dictGet? (dictErase d (g x)) (g y) = some (h y) := by
      intro y hy
      have hne : g y ≠ g x := by
        intro he
        exact hnd.1 (he ▸ List.mem_map_of_mem g hy)
      rw [dictGet?_dictErase_ne _ _ _ hne]
      exact hget y (List.mem_cons_of_mem _ hy)
    obtain ⟨d2, hg2, hpres, hlen⟩ := ih (dictErase d (g x)) hnd.2 hrest
    refine ⟨d2, ?_, ?_, ?_⟩
    · simp only [List.map_cons, gatherExperts, hx, hg2]
    · intro k hk
      simp only [List.map_cons, List.mem_cons, not_or] at hk
      rw [hpres k hk.2, dictGet?_dictErase_ne _ _ _ hk.1]
    · have hxk : g x ∈ dictKeys d := mem_keys_of_dictGet? d (g x) (h x) hx
      have := length_dictErase_of_mem d (g x) hxk
      simp only [List.length_cons]
      omega

theorem drainKinds_spec {α : Type} (b n : Nat) (t : Nat → String → α) :
    ∀ (ws : List String) (d : PyDict α),
      ((ws.map fun w => (List.range n).map fun x => enameQwen b x w).flatten).Nodup →
      (∀ w ∈ ws, ∀ x, x < n → dictGet? d (enameQwen b x w) = some (t x w)) →
      ∃ d2, drainKinds d b n ws =
          some (ws.map fun w => (mergedNameQwen b w,
            Stacked.stack ((List.range n).map fun x => t x w)), d2) ∧
        (∀ k, (∀ w ∈ ws, ∀ x, x < n → k ≠ enameQwen b x w) →
          dictGet? d2 k = dictGet? d k) ∧
        d2.length + n * ws.length = d.length := by
  intro ws
  induction ws with
  | nil =>
    intro d _ _
    exact ⟨d, rfl, fun k _ => rfl, by simp⟩
  | cons w ws ih =>
    intro d hnd hget
    rw [List.map_cons, List.flatten_cons, List.nodup_append] at hnd
    obtain ⟨hnd1, hnd2, hdisj⟩ := hnd
    have hget1 : ∀ x ∈ List.range n,
        dictGet? d (enameQwen b x w) = some (t x w) := by
      intro x hx
      exact hget w (List.mem_cons_self _ _) x (List.mem_range.mp hx)
    obtain ⟨d2, hg2, hpres2, hlen2⟩ :=
      gatherExperts_map_spec (fun x => enameQwen b x w) (fun x => t x w)
        (List.range n) d hnd1 hget1
    have hgetrest : ∀ w' ∈ ws, ∀ x, x < n →
        dictGet? d2 (enameQwen b x w') = some (t x w') := by
      intro w' hw' x hx
      have hmem : enameQwen b x w' ∈
          (ws.map fun w => (List.range n).map fun x => enameQwen b x w).flatten := by
        simp only [List.mem_flatten, List.mem_map]
        exact ⟨(List.range n).map fun x => enameQwen b x w',
          ⟨w', hw', rfl⟩, List.mem_map_of_mem _ (List.mem_range.mpr hx)⟩
      have hnotin : enameQwen b x w' ∉ (List.range n).map fun x => enameQwen b x w := by
        intro hin
        exact (hdisj hin hmem)
      rw [hpres2 _ hnotin]
      exact hget w' (List.mem_cons_of_mem _ hw') x hx
    obtain ⟨d3, hg3, hpres3, hlen3⟩ := ih d2 hnd2 hgetrest
    refine ⟨d3, ?_, ?_, ?_⟩
    · simp only [drainKinds, hg2, hg3, List.map_cons]
    · intro k hk
      have hk1 : ∀ w' ∈ ws, ∀ x, x < n → k ≠ enameQwen b x w' := by
        intro w' hw' x hx
        exact hk w' (List.mem_cons_of_mem _ hw') x hx
      have hk0 : k ∉ (List.range n).map fun x => enameQwen b x w := by
        intro hin
        obtain ⟨x, hx, he⟩ := List.mem_map.mp hin
        exact hk w (List.mem_cons_self _ _) x (List.mem_range.mp hx) he.symm
      rw [hpres3 k hk1, hpres2 k hk0]
    · simp only [List.length_cons, List.length_range] at hlen2 hlen3 ⊢
      rw [Nat.mul_succ]
      omega

theorem qwen2moe_modify_none_eq_replicate {α : Type} (mapName : String → String)
    (bc n : Nat) (name : String) (data : α) (bid : Option Nat)
    (h : strContains name "experts" = true) :
    qwen2moe_modify_tensors mapName bc n none name data bid =
      qwen2moe_modify_tensors mapName bc n (some (List.replicate bc []))
        name data bid := by
  simp only [qwen2moe_modify_tensors, h, if_true, Option.getD_some, Option.getD_none]

theorem runQwen2Moe_none_cons {α : Type} (mapName : String → String) (bc n : Nat)
    (i : RawItem α) (rest : List (RawItem α))
    (h : strContains i.1 "experts" = true) :
    runQwen2Moe mapName bc n none (i :: rest) =
      runQwen2Moe mapName bc n (some (List.replicate bc [])) (i :: rest) := by
  obtain ⟨name, data, bid⟩ := i
  simp only [runQwen2Moe]
  rw [qwen2moe_modify_none_eq_replicate mapName bc n name data bid h]

theorem runQwen2Moe_append {α : Type} (mapName : String → String) (bc n : Nat) :
    ∀ (l1 : List (RawItem α)) (st : Option (List (PyDict α)))
      (l2 : List (RawItem α)),
      runQwen2Moe mapName bc n st (l1 ++ l2) =
        match runQwen2Moe mapName bc n st l1 with
        | none => none
        | some (o1, st1) =>
          match runQwen2Moe mapName bc n st1 l2 with
          | none => none
          | some (o2, st2) => some (o1 ++ o2, st2) := by
  intro l1
  induction l1 with
  | nil =>
    intro st l2
    simp only [List.nil_append, runQwen2Moe]
    cases h2 : runQwen2Moe mapName bc n st l2 with
    | none => rfl
    | some p => obtain ⟨o2, st2⟩ := p; simp
  | cons i l1 ih =>
    intro st l2
    obtain ⟨name, data, bid⟩ := i
    simp only [List.cons_append, runQwen2Moe]
    cases hm : qwen2moe_modify_tensors mapName bc n st name data bid with
    | none => rfl
    | some p =>
      obtain ⟨outs, st1⟩ := p
      simp only [List.append_eq]
      rw [ih st1 l2]
      cases h1 : runQwen2Moe mapName bc n st1 l1 with
      | none => rfl
      | some q =>
        obtain ⟨o1, st2⟩ := q
        cases h2 : runQwen2Moe mapName bc n st2 l2 with
        | none => simp [h2]
        | some r =>
          obtain ⟨o2, st3⟩ := r
          simp [h2, List.append_assoc]

theorem runQwen2Moe_accumulate {α : Type} (mapName : String → String)
    (bc n b : Nat) :
    ∀ (items : List (RawItem α)) (ex : List (PyDict α)) (d : PyDict α),
      ex.get? b = some d →
      (∀ p ∈ items, p.2.2 = some b ∧ strContains p.1 "experts" = true) →
      (dictKeys d ++ items.map (fun p => p.1)).Nodup →
      d.length + items.length < n * 3 →
      ∃ ex2, runQwen2Moe mapName bc n (some ex) items = some ([], some ex2) ∧
        ex2.get? b = some (d ++ items.map fun p => (p.1, p.2.1)) ∧
        ex2.length = ex.length := by
  intro items
  induction items with
  | nil =>
    intro ex d hb _ _ _
    exact ⟨ex, rfl, by simpa using hb, rfl⟩
  | cons i rest ih =>
    intro ex d hb hprops hnd hlen
    obtain ⟨name, data, bid⟩ := i
    obtain ⟨hbid, hsub⟩ := hprops _ (List.mem_cons_self _ _)
    have hbid' : bid = some b := hbid
    subst hbid'
    have hblt : b < ex.length := by
      by_contra hge
      push_neg at hge
      rw [List.get?_eq_getElem?, List.getElem?_eq_none hge] at hb
      exact Option.noConfusion hb
    have hfresh : name ∉ dictKeys d := by
      rcases List.nodup_append.mp hnd with ⟨-, -, hdisj⟩
      intro hmem
      exact hdisj hmem (by simp)
    have hins : dictInsert d name data = d ++ [(name, data)] :=
      dictInsert_of_not_mem _ _ _ hfresh
    have htrig : ¬(n * 3 ≤ (d ++ [(name, data)]).length) := by
      simp only [List.length_append, List.length_cons, List.length_nil]
      simp only [List.length_cons] at hlen
      omega
    have hmod : qwen2moe_modify_tensors mapName bc n (some ex) name data (some b) =
        some ([], some (ex.set b (d ++ [(name, data)]))) := by
      simp only [qwen2moe_modify_tensors, hsub, if_true, Option.getD_some, hb,
        if_neg htrig, hins]
    have hget1 : (ex.set b (d ++ [(name, data)])).get? b =
        some (d ++ [(name, data)]) := by
      rw [List.get?_eq_getElem?]
      exact List.getElem?_set_self (by simpa using hblt)
    have hnd1 : (dictKeys (d ++ [(name, data)]) ++ rest.map (fun p => p.1)).Nodup := by
      simp only [dictKeys, List.map_append, List.map_cons, List.map_nil,
        List.append_assoc, List.singleton_append]
      simpa [dictKeys] using hnd
    have hlen1 : (d ++ [(name, data)]).length + rest.length < n * 3 := by
      simp only [List.length_append, List.length_cons, List.length_nil]
      simp only [List.length_cons] at hlen
      omega
    obtain ⟨ex2, hrun, hget2, hlen2⟩ :=
      ih (ex.set b (d ++ [(name, data)])) (d ++ [(name, data)]) hget1
        (fun p hp => hprops p (List.mem_cons_of_mem _ hp)) hnd1 hlen1
    refine ⟨ex2, ?_, ?_, ?_⟩
    · simp only [runQwen2Moe, hmod, hrun, List.append_nil]
    · rw [hget2]
      simp
    · rw [hlen2, List.length_set]

/-- C2: once the arrival completing a block's expert group (all
`n_experts × 3` expert tensors) is pushed through
`Qwen2MoeModel.modify_tensors`, that same call emits exactly one stacked
tensor per weight kind — the stack's slice `x` being expert `x`'s raw
tensor — the emitted list being independent of the arrival order
(any permutation of the group produces the same output), every earlier call
emits nothing, and the block's buffered entries are all deleted in that
call. -/
theorem c2_expert_group_merge {α : Type} (mapName : String → String)
    (block_count n_experts b : Nat) (t : Nat → String → α)
    (inputs : List (RawItem α))
    (hb : b < block_count) (hn : 0 < n_experts)
    (hperm : inputs.Perm (expertGroup b n_experts t))
    (hnodup : ((expertGroup b n_experts t).map (fun p => p.1)).Nodup) :
    runOutputs (runQwen2Moe mapName block_count n_experts none inputs) =
      some (expectedMergedOutputs mapName b n_experts t) ∧
    runBlockDict (runQwen2Moe mapName block_count n_experts none inputs) b =
      some [] ∧
    (∀ pre, pre <+: inputs → pre ≠ inputs →
      runOutputs (runQwen2Moe mapName block_count n_experts none pre) =
        some []) := by
  have hmemprops : ∀ p ∈ inputs,
      p.2.2 = some b ∧ strContains p.1 "experts" = true := by
    intro p hp
    obtain ⟨w, hw, x, hx, rfl⟩ :=
      (mem_expertGroup b n_experts t p).mp (hperm.subset hp)
    exact ⟨rfl, strContains_enameQwen b x w⟩
  have hnames : (inputs.map (fun p => p.1)).Nodup :=
    ((hperm.map (fun p => p.1)).nodup_iff).mpr hnodup
  have hlen_inputs : inputs.length = n_experts * 3 := by
    rw [hperm.length_eq, length_expertGroup]
  have hget0 : (List.replicate block_count ([] : PyDict α)).get? b = some [] := by
    rw [List.get?_eq_getElem?]
    exact List.getElem?_replicate_of_lt hb
  have hprefix : ∀ pre, pre <+: inputs → pre.length < inputs.length →
      runOutputs (runQwen2Moe mapName block_count n_experts none pre) =
        some [] := by
    intro pre hpre hlt
    cases pre with
    | nil => rfl
    | cons i rest =>
      have hsubi : strContains i.1 "experts" = true :=
        (hmemprops i (hpre.subset (List.mem_cons_self _ _))).2
      rw [runQwen2Moe_none_cons mapName block_count n_experts i rest hsubi]
      have hprops' : ∀ p ∈ i :: rest,
          p.2.2 = some b ∧ strContains p.1 "experts" = true :=
        fun p hp => hmemprops p (hpre.subset hp)
      have hnd' : (dictKeys ([] : PyDict α) ++
          ((i :: rest).map (fun p => p.1))).Nodup := by
        simp only [dictKeys, List.map_nil, List.nil_append]
        exact ((hpre.map (fun p => p.1)).sublist).nodup hnames
      have hlen' : ([] : PyDict α).length + (i :: rest).length <
          n_experts * 3 := by
        simp only [List.length_nil, Nat.zero_add]
        omega
      obtain ⟨ex2, hrun, -, -⟩ :=
        runQwen2Moe_accumulate mapName block_count n_experts b (i :: rest)
          (List.replicate block_count []) [] hget0 hprops' hnd' hlen'
      simp [runOutputs, hrun]
  have hne : inputs ≠ [] := by
    intro he
    rw [he] at hlen_inputs
    simp at hlen_inputs
    omega
  have hhead : runQwen2Moe mapName block_count n_experts none inputs =
      runQwen2Moe mapName block_count n_experts
        (some (List.replicate block_count [])) inputs := by
    cases hi : inputs with
    | nil => exact absurd hi hne
    | cons i rest =>
      refine runQwen2Moe_none_cons _ _ _ i rest ?_
      exact (hmemprops i (by rw [hi]; exact List.mem_cons_self _ _)).2
  obtain ⟨front, last, hdecomp⟩ : ∃ front last, inputs = front ++ [last] := by
    rcases List.eq_nil_or_concat inputs with he | ⟨as, a, he⟩
    · exact absurd he hne
    · exact ⟨as, a, by simpa [List.concat_eq_append] using he⟩
  obtain ⟨lname, ldata, lbid⟩ := last
  have hlmem : (lname, ldata, lbid) ∈ inputs := by
    rw [hdecomp]
    exact List.mem_append_right _ (List.mem_singleton.mpr rfl)
  obtain ⟨hlbid, hlsub⟩ := hmemprops _ hlmem
  have hlbid' : lbid = some b := hlbid
  subst hlbid'
  have hfront_len : front.length + 1 = n_experts * 3 := by
    have h := hlen_inputs
    rw [hdecomp] at h
    simpa using h
  have hndf : (dictKeys ([] : PyDict α) ++ (front.map (fun p => p.1))).Nodup := by
    simp only [dictKeys, List.map_nil, List.nil_append]
    refine List.Sublist.nodup ?_ hnames
    refine List.Sublist.map _ ?_
    rw [hdecomp]
    exact List.sublist_append_left _ _
  obtain ⟨ex1, hrunF, hget1, hlen1⟩ :=
    runQwen2Moe_accumulate mapName block_count n_experts b front
      (List.replicate block_count []) [] hget0
      (fun p hp => hmemprops p (by rw [hdecomp]; exact List.mem_append_left _ hp))
      hndf (by simp only [List.length_nil, Nat.zero_add]; omega)
  have hget1' : ex1.get? b = some (front.map (fun p => (p.1, p.2.1))) := by
    simpa using hget1
  have hfreshl : lname ∉ dictKeys (front.map (fun p => (p.1, p.2.1))) := by
    have h := hnames
    rw [hdecomp] at h
    simp only [List.map_append, List.map_cons, List.map_nil] at h
    rcases List.nodup_append.mp h with ⟨-, -, hdisj⟩
    intro hmem
    simp only [dictKeys, List.map_map] at hmem
    have hmem' : lname ∈ List.map (fun p => p.1) front := by
      simpa [Function.comp] using hmem
    exact hdisj hmem' (by simp)
  have hinsl : dictInsert (front.map (fun p => (p.1, p.2.1))) lname ldata =
      inputs.map (fun p => (p.1, p.2.1)) := by
    rw [dictInsert_of_not_mem _ _ _ hfreshl, hdecomp]
    simp
  have hdfull_len : (inputs.map (fun p => (p.1, p.2.1))).length =
      n_experts * 3 := by
    simpa using hlen_inputs
  have htrig : n_experts * 3 ≤
      (dictInsert (front.map (fun p => (p.1, p.2.1))) lname ldata).length := by
    rw [hinsl, hdfull_len]
  have hkeys_nodup : (dictKeys (inputs.map (fun p => (p.1, p.2.1)))).Nodup := by
    simpa [dictKeys, List.map_map, Function.comp] using hnames
  have hlook : ∀ w ∈ qwenWeightKinds, ∀ x, x < n_experts →
      dictGet? (inputs.map (fun p => (p.1, p.2.1))) (enameQwen b x w) =
        some (t x w) := by
    intro w hw x hx
    apply dictGet?_eq_some_of_mem _ _ _ hkeys_nodup
    have hmem : (enameQwen b x w, t x w) ∈
        (expertGroup b n_experts t).map (fun p => (p.1, p.2.1)) :=
      List.mem_map_of_mem _
        ((mem_expertGroup b n_experts t _).mpr ⟨w, hw, x, hx, rfl⟩)
    exact ((hperm.map (fun p => (p.1, p.2.1))).mem_iff).mpr hmem
  have hndflat : ((qwenWeightKinds.map fun w =>
      (List.range n_experts).map fun x => enameQwen b x w).flatten).Nodup := by
    rw [← map_fst_expertGroup]
    exact hnodup
  obtain ⟨d2, hdrain, -, hlen2⟩ :=
    drainKinds_spec b n_experts t qwenWeightKinds
      (inputs.map (fun p => (p.1, p.2.1))) hndflat hlook
  have hd2nil : d2 = [] := by
    apply List.length_eq_zero.mp
    have h3 : qwenWeightKinds.length = 3 := rfl
    rw [h3] at hlen2
    omega
  subst hd2nil
  have hmodlast : qwen2moe_modify_tensors mapName block_count n_experts
      (some ex1) lname ldata (some b) =
      some (expectedMergedOutputs mapName b n_experts t,
        some ((ex1.set b (inputs.map (fun p => (p.1, p.2.1)))).set b [])) := by
    simp only [qwen2moe_modify_tensors, hlsub, if_true, Option.getD_some,
      hget1', hinsl, if_pos (hinsl ▸ htrig), hdrain]
    simp [expectedMergedOutputs, List.map_map, Function.comp]
  have hrun_all : runQwen2Moe mapName block_count n_experts none inputs =
      some (expectedMergedOutputs mapName b n_experts t,
        some ((ex1.set b (inputs.map (fun p => (p.1, p.2.1)))).set b [])) := by
    rw [hhead, hdecomp, runQwen2Moe_append, hrunF]
    simp only [runQwen2Moe, hmodlast]
    simp
  refine ⟨?_, ?_, ?_⟩
  · rw [hrun_all]
    rfl
  · rw [hrun_all]
    simp only [runBlockDict]
    have hbl : b < ((ex1.set b (inputs.map (fun p => (p.1, p.2.1)))).length) := by
      rw [List.length_set, hlen1, List.length_replicate]
      exact hb
    exact List.getElem?_set_self hbl
  · intro pre hpre hne'
    refine hprefix pre hpre ?_
    rcases Nat.lt_or_ge pre.length inputs.length with h | h
    · exact h
    · exfalso
      exact hne' (List.IsPrefix.eq_of_length hpre (le_antisymm hpre.length_le h))

/-- C2 witness: one block, one expert, arrivals in reverse order still merge
into the three stacked tensors in the completing call, earlier calls emit
nothing, and the buffer ends empty. -/
theorem c2_witness :
    ((0 : Nat) < 1 ∧
      ((expertGroup 0 1 (fun x _ => x)).map (fun p => p.1)).Nodup ∧
      ((expertGroup 0 1 (fun x _ => x)).reverse).Perm
        (expertGroup 0 1 (fun x _ => x))) ∧
    runOutputs (runQwen2Moe (α := Nat) id 1 1 none
        ((expertGroup 0 1 (fun x _ => x)).reverse)) =
      some (expectedMergedOutputs id 0 1 (fun x _ => x)) ∧
    runBlockDict (runQwen2Moe (α := Nat) id 1 1 none
        ((expertGroup 0 1 (fun x _ => x)).reverse)) 0 = some [] ∧
    runOutputs (runQwen2Moe (α := Nat) id 1 1 none
        (((expertGroup 0 1 (fun x _ => x)).reverse).take 2)) = some [] :=
  ⟨⟨by decide, by decide, List.reverse_perm _⟩,
   (c2_expert_group_merge id 1 1 0 (fun x _ => x)
      ((expertGroup 0 1 (fun x _ => x)).reverse) (by decide) (by decide)
      (List.reverse_perm _) (by decide)).1,
   (c2_expert_group_merge id 1 1 0 (fun x _ => x)
      ((expertGroup 0 1 (fun x _ => x)).reverse) (by decide) (by decide)
      (List.reverse_perm _) (by decide)).2.1,
   (c2_expert_group_merge id 1 1 0 (fun x _ => x)
      ((expertGroup 0 1 (fun x _ => x)).reverse) (by decide) (by decide)
      (List.reverse_perm _) (by decide)).2.2
     (((expertGroup 0 1 (fun x _ => x)).reverse).take 2)
     (List.take_prefix 2 _) (by decide)⟩
